import Mathlib

/-!
Verification of the la-stock-watch ranking/enrichment pipeline.

The development shallowly embeds the two build scripts of the repository:
`build.py` (weekly-change variant, namespace `Build`) and `build_top25.py`
(Top-25 variant, namespace `BuildTop25`).  Prices, percentages and market
caps are modelled as rationals; Python dictionaries are modelled as
association lists with Python's insertion/overwrite semantics; Python's
stable `list.sort` / `sorted` is modelled by a stable insertion sort; a
Python exception is modelled by `Option` (`none` = the call raises).
-/

namespace StockWatch

/-- Round-half-to-even on rationals, modelling Python's `round(x)` on the
exact value. -/
def roundHalfEven (q : ℚ) : ℤ :=
  let f : ℤ := ⌊q⌋
  let r : ℚ := q - f
  if r < 1/2 then f
  else if 1/2 < r then f + 1
  else if f % 2 = 0 then f else f + 1

/-- Python's `round(x, 2)`, on the exact rational value. -/
def pyRound2 (q : ℚ) : ℚ := (roundHalfEven (q * 100) : ℚ) / 100

/-- Python's `round(x, 1)`, on the exact rational value. -/
def pyRound1 (q : ℚ) : ℚ := (roundHalfEven (q * 10) : ℚ) / 10

/-- Python dict assignment `d[k] = v`, on a dict modelled as an association list: an existing
key is updated in place, a new key is appended at the end. -/
def dictInsert (k : String) (v : α) : List (String × α) → List (String × α)
  | [] => [(k, v)]
  | (k', v') :: t => if k' = k then (k, v) :: t else (k', v') :: dictInsert k v t

/-- Dict lookup (`d.get(k)` / `k in d`): first binding of the key. -/
def dictGet (k : String) (d : List (String × α)) : Option α :=
  (d.find? (fun p => p.1 = k)).map (·.2)

/-- Lookup in a dict built by a comprehension `{x.key: x for x in l}`:
a later entry with the same key overwrites an earlier one. -/
def dictOfLast (key : α → String) (l : List α) (k : String) : Option α :=
  (l.reverse.find? (fun x => key x = k)).map id

/-- Stable insertion into a list sorted by the boolean comparator `le`:
the new element goes after every leading element `y` with `le y x`.  Used
to model Python's stable sorts. -/
def insSorted (le : α → α → Bool) (x : α) : List α → List α
  | [] => [x]
  | y :: t => if le y x then y :: insSorted le x t else x :: y :: t

/-- Python's stable `sorted(l, ...)` with boolean comparator `le`
(`le a b` = "a may come before b").  Elements are inserted left to right,
each after all its equals, which is exactly stable sorting. -/
def pySorted (le : α → α → Bool) (l : List α) : List α :=
  l.foldl (fun acc x => insSorted le x acc) []

/-- Python's `min(l)` — raises (returns `none`) on an empty list. -/
def pyMin : List ℚ → Option ℚ
  | [] => none
  | x :: xs => some (xs.foldl min x)

/-- Python's `max(l)` — raises (returns `none`) on an empty list. -/
def pyMax : List ℚ → Option ℚ
  | [] => none
  | x :: xs => some (xs.foldl max x)

/-- Tag list elements with their position, starting at `n`
(Python's `enumerate`; used to track object identity of the dicts that
`build_rankings` mutates). -/
def tagFrom (n : ℕ) : List α → List (ℕ × α)
  | [] => []
  | x :: xs => (n, x) :: tagFrom (n + 1) xs

/-- Position of the tagged element with identity `i` in a tagged list. -/
def posOf (i : ℕ) : List (ℕ × α) → Option ℕ
  | [] => none
  | (j, _) :: t => if j = i then some 0 else (posOf i t).map (· + 1)

end StockWatch

namespace Build

open StockWatch

/-- A curated company from `socal_companies.json` (`build.py`). -/
structure Company where
  ticker : String
  name : String
  city : String
deriving DecidableEq

/-- A quote dict as produced by `fetch_quotes` in `build.py`. -/
structure Quote where
  symbol : String
  price : ℚ
  yearHigh : ℚ
  yearLow : ℚ
  marketCap : Option ℚ
  pe : Option ℚ
  volume : ℚ
deriving DecidableEq

/-- An enriched stock dict as built by `build_rankings` in `build.py`. -/
structure EnrichedStock where
  rank : ℕ
  name : String
  ticker : String
  city : String
  price : ℚ
  change_pct : ℚ
  year_high : ℚ
  year_low : ℚ
  market_cap : Option ℚ
  pe : Option ℚ
  volume : ℚ
deriving DecidableEq

/-- Lookup `company_map[ticker]` where `company_map` is the comprehension
`{c["ticker"]: c for c in companies}`
(a later duplicate ticker overwrites an earlier one). -/
def companyLookup (companies : List Company) (t : String) : Option Company :=
  dictOfLast Company.ticker companies t

/-- The body of the enrichment loop of `build_rankings` for one quote:
`none` when the ticker is not in the curated company map (the `continue`
branch), otherwise the enriched dict with rank 0. -/
def enrichOne (companies : List Company) (previous_prices : List (String × ℚ))
    (q : Quote) : Option EnrichedStock :=
  match companyLookup companies q.symbol with
  | none => none
  | some m =>
    let current_price := q.price
    let week_change : ℚ :=
      match dictGet q.symbol previous_prices with
      | some last_price =>
        if 0 < last_price then ((current_price - last_price) / last_price) * 100
        else if 0 < q.yearLow then ((current_price - q.yearLow) / q.yearLow) * 100 / 52
        else 0
      | none =>
        if 0 < q.yearLow then ((current_price - q.yearLow) / q.yearLow) * 100 / 52
        else 0
    some
      { rank := 0
        name := m.name
        ticker := q.symbol
        city := m.city
        price := current_price
        change_pct := pyRound2 week_change
        year_high := q.yearHigh
        year_low := q.yearLow
        market_cap := q.marketCap
        pe := q.pe
        volume := q.volume }

/-- Comparator of `enriched.sort(key=change_pct, reverse=True)` on tagged
dicts. -/
def descByChange (a b : ℕ × EnrichedStock) : Bool :=
  decide (b.2.change_pct ≤ a.2.change_pct)

/-- Comparator of `sorted(enriched, key=change_pct)` on tagged dicts. -/
def ascByChange (a b : ℕ × EnrichedStock) : Bool :=
  decide (a.2.change_pct ≤ b.2.change_pct)

/-- The final value of the `rank` key of the dict with identity `i` after
both in-place rank-assignment loops of `build_rankings` have run: the
losers loop runs last, so a dict in both lists keeps its loser rank. -/
def finalRank (gainersT losersT : List (ℕ × EnrichedStock)) (i : ℕ) : ℕ :=
  match posOf i losersT with
  | some j => j + 1
  | none =>
    match posOf i gainersT with
    | some k => k + 1
    | none => 0

def setRank (s : EnrichedStock) (n : ℕ) : EnrichedStock := { s with rank := n }

/-- Result of `build_rankings`. -/
structure RankingsResult where
  gainers : List EnrichedStock
  losers : List EnrichedStock
  enriched : List EnrichedStock
  current_prices : List (String × ℚ)
deriving DecidableEq

/-- The function `build_rankings(companies, quotes, previous_prices)` from `build.py`.
The enrichment loop, the in-place descending sort, `gainers = enriched[:25]`,
`losers = sorted(enriched, key=change_pct)[:25]`, and the two mutating
rank-assignment loops (their aliasing through shared dicts is reproduced via
the identity tags). -/
def build_rankings (companies : List Company) (quotes : List Quote)
    (previous_prices : List (String × ℚ)) : RankingsResult :=
  let enriched0 := quotes.filterMap (enrichOne companies previous_prices)
  let current_prices := quotes.foldl
    (fun acc q =>
      if (companyLookup companies q.symbol).isSome then
        dictInsert q.symbol q.price acc
      else acc) []
  let tagged := tagFrom 0 enriched0
  let sortedDesc := pySorted descByChange tagged
  let gainersT := sortedDesc.take 25
  let sortedAsc := pySorted ascByChange sortedDesc
  let losersT := sortedAsc.take 25
  let rk := finalRank gainersT losersT
  { gainers := gainersT.map (fun p => setRank p.2 (rk p.1))
    losers := losersT.map (fun p => setRank p.2 (rk p.1))
    enriched := sortedDesc.map (fun p => setRank p.2 (rk p.1))
    current_prices := current_prices }

/-- The expression `spotlight_gainer = gainers[0] if gainers else None` in `main`. -/
def spotlightOf (l : List EnrichedStock) : Option EnrichedStock := l.head?

/-- The price-history JSON file written by `save_price_history`. -/
structure PriceHistoryFile where
  saved_at : String
  prices : List (String × ℚ)
deriving DecidableEq

/-- The function `save_price_history(prices, build_date)`: the file content written. -/
def save_price_history (prices : List (String × ℚ)) (build_date : String) :
    PriceHistoryFile :=
  { saved_at := build_date, prices := prices }

/-- The function `load_price_history()`: reads the file if it exists (`none` = missing)
and returns its `prices` mapping, else the empty dict. -/
def load_price_history (file : Option PriceHistoryFile) : List (String × ℚ) :=
  match file with
  | none => []
  | some d => d.prices

end Build

namespace BuildTop25

open StockWatch

/-- Validation threshold `MIN_MARKET_CAP = 1_000_000_000` from `build_top25.py`. -/
def MIN_MARKET_CAP : ℚ := 1000000000

/-- Validation threshold `MAX_MARKET_CAP = 500_000_000_000`. -/
def MAX_MARKET_CAP : ℚ := 500000000000

/-- Validation threshold `MAX_WEEKLY_CHANGE = 60`. -/
def MAX_WEEKLY_CHANGE : ℚ := 60

/-- A curated company from `top25_companies.json` (`build_top25.py`). -/
structure Company where
  ticker : String
  name : String
  city : String
  county : String
deriving DecidableEq

/-- A quote dict as produced by `fetch_quotes` in `build_top25.py`:
`week_ago_price` may be `None`. -/
structure Quote where
  symbol : String
  price : ℚ
  week_ago_price : Option ℚ
  yearHigh : ℚ
  yearLow : ℚ
  marketCap : Option ℚ
  pe : Option ℚ
  volume : ℚ
deriving DecidableEq

/-- An enriched stock dict as built by `build_enriched_data`. -/
structure EnrichedStock where
  rank : ℕ
  name : String
  ticker : String
  city : String
  county : String
  price : ℚ
  change_pct : ℚ
  year_high : ℚ
  year_low : ℚ
  market_cap : Option ℚ
  pe : Option ℚ
  yahoo_url : String
deriving DecidableEq

/-- Lookup `quote_map[ticker]` where `quote_map` is the comprehension
`{q["symbol"]: q for q in quotes}`. -/
def quoteLookup (quotes : List Quote) (t : String) : Option Quote :=
  dictOfLast Quote.symbol quotes t

/-- The body of the enrichment loop of `build_enriched_data` for one curated
company: `none` when the ticker has no fetched quote (the `continue` branch).
The Python truthiness test `if week_ago_price and week_ago_price > 0` holds
exactly when the price is present and strictly positive. -/
def enrichOne (quotes : List Quote) (c : Company) : Option EnrichedStock :=
  match quoteLookup quotes c.ticker with
  | none => none
  | some q =>
    let current_price := q.price
    let week_change : ℚ :=
      match q.week_ago_price with
      | some w => if 0 < w then ((current_price - w) / w) * 100 else 0
      | none => 0
    some
      { rank := 0
        name := c.name
        ticker := c.ticker
        city := c.city
        county := c.county
        price := current_price
        change_pct := pyRound2 week_change
        year_high := q.yearHigh
        year_low := q.yearLow
        market_cap := q.marketCap
        pe := q.pe
        yahoo_url := "https://finance.yahoo.com/quote/" ++ c.ticker ++ "/" }

/-- Sort key `x["market_cap"] or 0` (both `None` and `0` give `0`). -/
def capKey (s : EnrichedStock) : ℚ :=
  match s.market_cap with
  | some c => c
  | none => 0

/-- Comparator of `enriched.sort(key=market_cap or 0, reverse=True)`. -/
def descByCap (a b : EnrichedStock) : Bool := decide (capKey b ≤ capKey a)

/-- The function `build_enriched_data(companies, quotes)` from `build_top25.py`:
enrich each curated company that has a quote, sort by market cap descending,
assign dense ranks 1.. by enumeration (a single list, so no aliasing). -/
def build_enriched_data (companies : List Company) (quotes : List Quote) :
    List EnrichedStock :=
  let enriched0 := companies.filterMap (enrichOne quotes)
  let sorted := pySorted descByCap enriched0
  (tagFrom 0 sorted).map (fun p => { p.2 with rank := p.1 + 1 })

/-- Comparator of `sorted(enriched, key=change_pct, reverse=True)`. -/
def descByChange (a b : EnrichedStock) : Bool :=
  decide (b.change_pct ≤ a.change_pct)

/-- The function `find_spotlight_stocks(enriched)` from `build_top25.py`: the head and
last element of the list sorted by 7-day change descending, `None` on an
empty list. -/
def find_spotlight_stocks (enriched : List EnrichedStock) :
    Option EnrichedStock × Option EnrichedStock :=
  let sorted_by_change := pySorted descByChange enriched
  (sorted_by_change.head?, sorted_by_change.getLast?)

/-- One line of the validation log of `validate_data`.  Each constructor
stands for exactly one of the f-strings of the source, carrying the values
interpolated into it (string formatting of the numbers is host-language
detail). -/
inductive LogLine where
  | tickersOk (fetched : ℕ)
  | tickersFailed (fetched : ℕ)
  | missingTickers (failed : List String)
  | priceRangeOk (lo hi : ℚ)
  | priceRangeFailed
  | capRangeOk (lo hi : ℚ)
  | capRangeWarning (lo hi : ℚ)
  | extremeMover (ticker : String) (pct : ℚ)
  | noExtremeMovers
deriving DecidableEq

/-- Check 1 of `validate_data`: log lines and pass flag. -/
def check1 (enriched : List EnrichedStock) (failed_tickers : List String) :
    List LogLine × Bool :=
  let fetched := enriched.length
  if fetched = 25 then ([.tickersOk fetched], true)
  else
    ([.tickersFailed fetched] ++
      (if failed_tickers.isEmpty then [] else [.missingTickers failed_tickers]),
     false)

/-- Check 2 of `validate_data`: `none` models the `ValueError` that
`min(prices)` raises when `enriched` is empty (then `all(...)` is vacuously
true and the `min` call is reached on an empty sequence). -/
def check2 (enriched : List EnrichedStock) : Option (List LogLine × Bool) :=
  let prices := enriched.map (·.price)
  if prices.all (fun p => decide (0 < p)) then
    match prices with
    | [] => none
    | p :: ps => some ([.priceRangeOk (ps.foldl min p) (ps.foldl max p)], true)
  else some ([.priceRangeFailed], false)

/-- The comprehension `caps = [s["market_cap"] for s in enriched if s["market_cap"]]`:
missing (`None`) and zero market caps are excluded by Python truthiness. -/
def capsOf (enriched : List EnrichedStock) : List ℚ :=
  enriched.filterMap (fun s =>
    match s.market_cap with
    | some c => if c = 0 then none else some c
    | none => none)

/-- Check 3 of `validate_data` (advisory): when `caps` is nonempty, one
OK or WARNING line for the min/max cap range; when `caps` is empty, no
line at all. -/
def check3 (enriched : List EnrichedStock) : List LogLine :=
  let caps := capsOf enriched
  match caps with
  | [] => []
  | c :: cs =>
    let min_cap := cs.foldl min c
    let max_cap := cs.foldl max c
    if MIN_MARKET_CAP ≤ min_cap ∧ max_cap ≤ MAX_MARKET_CAP then
      [.capRangeOk min_cap max_cap]
    else
      [.capRangeWarning min_cap max_cap]

/-- Check 4 of `validate_data` (informational): one line per extreme mover,
or a single confirming line. -/
def check4 (enriched : List EnrichedStock) : List LogLine :=
  let extreme_movers :=
    enriched.filter (fun s => decide (MAX_WEEKLY_CHANGE < |s.change_pct|))
  if extreme_movers.isEmpty then [.noExtremeMovers]
  else extreme_movers.map (fun s => .extremeMover s.ticker s.change_pct)

/-- The function `validate_data(enriched, failed_tickers)` from `build_top25.py`:
the four checks in order, `passed` accumulated only by checks 1 and 2;
`none` when check 2 raises. -/
def validate_data (enriched : List EnrichedStock) (failed_tickers : List String) :
    Option (Bool × List LogLine) :=
  let c1 := check1 enriched failed_tickers
  match check2 enriched with
  | none => none
  | some c2 =>
    some (c1.2 && c2.2, c1.1 ++ c2.1 ++ check3 enriched ++ check4 enriched)

/-- Log lines appended by check 1. -/
def isCheck1Line : LogLine → Bool
  | .tickersOk _ => true
  | .tickersFailed _ => true
  | .missingTickers _ => true
  | _ => false

/-- Log lines appended by check 2. -/
def isCheck2Line : LogLine → Bool
  | .priceRangeOk _ _ => true
  | .priceRangeFailed => true
  | _ => false

/-- Log lines appended by check 3. -/
def isCheck3Line : LogLine → Bool
  | .capRangeOk _ _ => true
  | .capRangeWarning _ _ => true
  | _ => false

/-- Log lines appended by check 4. -/
def isCheck4Line : LogLine → Bool
  | .extremeMover _ _ => true
  | .noExtremeMovers => true
  | _ => false

end BuildTop25

namespace StockWatch

theorem insSorted_perm (le : α → α → Bool) (x : α) (l : List α) :
    (insSorted le x l).Perm (x :: l) := by
  induction l with
  | nil => exact List.Perm.refl _
  | cons y t ih =>
    simp only [insSorted]
    by_cases h : le y x
    · simp only [h, if_true]
      exact (ih.cons y).trans (List.Perm.swap x y t)
    · simp only [h, if_false]
      exact List.Perm.refl _

theorem mem_insSorted {le : α → α → Bool} {x z : α} {l : List α}
    (h : z ∈ insSorted le x l) : z = x ∨ z ∈ l := by
  have := (insSorted_perm le x l).mem_iff.mp h
  simpa using this

theorem insSorted_pairwise {le : α → α → Bool}
    (htrans : ∀ a b c, le a b = true → le b c = true → le a c = true)
    (htotal : ∀ a b, le a b = true ∨ le b a = true)
    (x : α) {l : List α} (h : l.Pairwise (fun a b => le a b = true)) :
    (insSorted le x l).Pairwise (fun a b => le a b = true) := by
  induction l with
  | nil => simp [insSorted]
  | cons y t ih =>
    rw [List.pairwise_cons] at h
    obtain ⟨hy, ht⟩ := h
    simp only [insSorted]
    by_cases hle : le y x = true
    · rw [if_pos hle, List.pairwise_cons]
      refine ⟨?_, ih ht⟩
      intro z hz
      rcases mem_insSorted hz with rfl | hz
      · exact hle
      · exact hy z hz
    · rw [if_neg hle, List.pairwise_cons]
      have hxy : le x y = true := by
        rcases htotal x y with h' | h'
        · exact h'
        · exact absurd h' hle
      refine ⟨?_, List.pairwise_cons.mpr ⟨hy, ht⟩⟩
      intro z hz
      rcases List.mem_cons.mp hz with h1 | h2
      · rw [h1]; exact hxy
      · exact htrans x y z hxy (hy z h2)

theorem pySorted_perm_aux (le : α → α → Bool) (l acc : List α) :
    (l.foldl (fun acc x => insSorted le x acc) acc).Perm (acc ++ l) := by
  induction l generalizing acc with
  | nil => simp
  | cons x xs ih =>
    simp only [List.foldl_cons]
    refine (ih (insSorted le x acc)).trans ?_
    refine (List.Perm.append_right xs (insSorted_perm le x acc)).trans ?_
    exact List.perm_middle.symm

theorem pySorted_perm (le : α → α → Bool) (l : List α) :
    (pySorted le l).Perm l := by
  simpa using pySorted_perm_aux le l []

theorem pySorted_pairwise_aux {le : α → α → Bool}
    (htrans : ∀ a b c, le a b = true → le b c = true → le a c = true)
    (htotal : ∀ a b, le a b = true ∨ le b a = true)
    (l : List α) {acc : List α}
    (hacc : acc.Pairwise (fun a b => le a b = true)) :
    (l.foldl (fun acc x => insSorted le x acc) acc).Pairwise
      (fun a b => le a b = true) := by
  induction l generalizing acc with
  | nil => exact hacc
  | cons x xs ih =>
    exact ih (insSorted_pairwise htrans htotal x hacc)

theorem pySorted_pairwise {le : α → α → Bool}
    (htrans : ∀ a b c, le a b = true → le b c = true → le a c = true)
    (htotal : ∀ a b, le a b = true ∨ le b a = true) (l : List α) :
    (pySorted le l).Pairwise (fun a b => le a b = true) := by
  exact pySorted_pairwise_aux htrans htotal l List.Pairwise.nil

theorem pairwise_head_rel {R : α → α → Prop} (hrefl : ∀ a, R a a)
    {l : List α} (h : l.Pairwise R) :
    ∀ y ∈ l.head?, ∀ x ∈ l, R y x := by
  cases l with
  | nil => intro y hy; simp at hy
  | cons a t =>
    intro y hy x hx
    have hya : y = a := by
      rw [List.head?_cons, Option.mem_def, Option.some_inj] at hy
      exact hy.symm
    rw [List.pairwise_cons] at h
    rcases List.mem_cons.mp hx with h1 | h2
    · rw [hya, h1]; exact hrefl a
    · rw [hya]; exact h.1 x h2

theorem pairwise_getLast_rel {R : α → α → Prop} (hrefl : ∀ a, R a a)
    {l : List α} (h : l.Pairwise R) :
    ∀ y ∈ l.getLast?, ∀ x ∈ l, R x y := by
  intro y hy x hx
  rw [List.getLast?_eq_head?_reverse] at hy
  have h' : l.reverse.Pairwise (fun a b => R b a) := by
    rw [List.pairwise_reverse]; exact h
  exact @pairwise_head_rel α (fun a b => R b a) (fun a => hrefl a) l.reverse h'
    y hy x (by simpa using hx)

theorem mem_tagFrom_snd {l : List α} {n : ℕ} {p : ℕ × α}
    (h : p ∈ tagFrom n l) : p.2 ∈ l := by
  induction l generalizing n with
  | nil => simp [tagFrom] at h
  | cons x xs ih =>
    simp only [tagFrom, List.mem_cons] at h
    rcases h with rfl | h
    · simp
    · exact List.mem_cons_of_mem x (ih h)

theorem mem_tagFrom_of_mem {l : List α} {x : α} (hx : x ∈ l) (n : ℕ) :
    ∃ i, (i, x) ∈ tagFrom n l := by
  induction l generalizing n with
  | nil => simp at hx
  | cons y ys ih =>
    rcases List.mem_cons.mp hx with h1 | h2
    · exact ⟨n, by rw [h1]; simp [tagFrom]⟩
    · obtain ⟨i, hi⟩ := ih h2 (n + 1)
      exact ⟨i, List.mem_cons_of_mem _ hi⟩

end StockWatch

namespace StockWatch

theorem pyRound2_zero : pyRound2 0 = 0 := by
  norm_num [pyRound2, roundHalfEven]

end StockWatch

open StockWatch

/-- C9: saving the price-history snapshot with `save_price_history` and
loading it back with `load_price_history` yields the identical
ticker-to-price mapping. -/
theorem C9_price_history_round_trip (prices : List (String × ℚ))
    (build_date : String) :
    Build.load_price_history (some (Build.save_price_history prices build_date))
      = prices := rfl

/-- C2: in `build_rankings` (weekly variant), a quote whose ticker has a
previous price strictly greater than 0 gets
`change_pct = round((current - previous) / previous * 100, 2)`. -/
theorem C2_weekly_change_with_previous_price
    (companies : List Build.Company) (prev : List (String × ℚ))
    (q : Build.Quote) (e : Build.EnrichedStock) (p : ℚ)
    (he : Build.enrichOne companies prev q = some e)
    (hp : dictGet q.symbol prev = some p) (hpos : 0 < p) :
    e.change_pct = pyRound2 (((q.price - p) / p) * 100) := by
  rcases hm : Build.companyLookup companies q.symbol with _ | m
  · simp [Build.enrichOne, hm] at he
  · simp only [Build.enrichOne, hm, hp, if_pos hpos, Option.some_inj] at he
    rw [← he]

/-- Witness for C2 at a concrete input. -/
theorem C2_weekly_change_with_previous_price_witness :
    Build.enrichOne [⟨"AAA", "Alpha", "LA"⟩] [("AAA", 4)]
        ⟨"AAA", 5, 9, 2, none, none, 100⟩ =
      some ⟨0, "Alpha", "AAA", "LA", 5, 25, 9, 2, none, none, 100⟩ ∧
    (⟨0, "Alpha", "AAA", "LA", 5, 25, 9, 2, none, none, 100⟩ :
        Build.EnrichedStock).change_pct =
      pyRound2 ((((⟨"AAA", 5, 9, 2, none, none, 100⟩ : Build.Quote).price - 4) / 4)
        * 100) := by
  constructor
  · norm_num [Build.enrichOne, Build.companyLookup, dictOfLast, dictGet,
      pyRound2, roundHalfEven]
  · exact C2_weekly_change_with_previous_price
      [⟨"AAA", "Alpha", "LA"⟩] [("AAA", 4)] ⟨"AAA", 5, 9, 2, none, none, 100⟩
      ⟨0, "Alpha", "AAA", "LA", 5, 25, 9, 2, none, none, 100⟩ 4
      (by norm_num [Build.enrichOne, Build.companyLookup, dictOfLast, dictGet,
        pyRound2, roundHalfEven])
      (by norm_num [dictGet]) (by norm_num)

/-- C3: in `build_rankings` (weekly variant), a quote whose ticker has no
previous price strictly greater than 0 gets the first-run approximation
`round(((current - yearLow) / yearLow * 100) / 52, 2)` when `yearLow > 0`,
else `0`. -/
theorem C3_weekly_change_first_run_approximation
    (companies : List Build.Company) (prev : List (String × ℚ))
    (q : Build.Quote) (e : Build.EnrichedStock)
    (he : Build.enrichOne companies prev q = some e)
    (hnp : ∀ p, dictGet q.symbol prev = some p → ¬ 0 < p) :
    e.change_pct =
      if 0 < q.yearLow then
        pyRound2 (((q.price - q.yearLow) / q.yearLow) * 100 / 52)
      else 0 := by
  rcases hm : Build.companyLookup companies q.symbol with _ | m
  · simp [Build.enrichOne, hm] at he
  · rcases hd : dictGet q.symbol prev with _ | p
    · simp only [Build.enrichOne, hm, hd, Option.some_inj] at he
      rw [← he]
      by_cases hy : 0 < q.yearLow
      · simp [if_pos hy]
      · simp [if_neg hy, pyRound2_zero]
    · have hple := hnp p hd
      simp only [Build.enrichOne, hm, hd, if_neg hple, Option.some_inj] at he
      rw [← he]
      by_cases hy : 0 < q.yearLow
      · simp [if_pos hy]
      · simp [if_neg hy, pyRound2_zero]

/-- Witness for C3 at a concrete input (empty previous-price mapping,
`yearLow = 2`, so `change_pct = round(((6-2)/2*100)/52, 2) = 3.85`). -/
theorem C3_weekly_change_first_run_approximation_witness :
    Build.enrichOne [⟨"AAA", "Alpha", "LA"⟩] []
        ⟨"AAA", 6, 9, 2, none, none, 100⟩ =
      some ⟨0, "Alpha", "AAA", "LA", 6, 385/100, 9, 2, none, none, 100⟩ ∧
    (⟨0, "Alpha", "AAA", "LA", 6, 385/100, 9, 2, none, none, 100⟩ :
        Build.EnrichedStock).change_pct =
      if 0 < (⟨"AAA", 6, 9, 2, none, none, 100⟩ : Build.Quote).yearLow then
        pyRound2 ((((⟨"AAA", 6, 9, 2, none, none, 100⟩ : Build.Quote).price -
          (⟨"AAA", 6, 9, 2, none, none, 100⟩ : Build.Quote).yearLow) /
          (⟨"AAA", 6, 9, 2, none, none, 100⟩ : Build.Quote).yearLow) * 100 / 52)
      else 0 := by
  constructor
  · norm_num [Build.enrichOne, Build.companyLookup, dictOfLast, dictGet,
      pyRound2, roundHalfEven]
  · exact C3_weekly_change_first_run_approximation
      [⟨"AAA", "Alpha", "LA"⟩] [] ⟨"AAA", 6, 9, 2, none, none, 100⟩
      ⟨0, "Alpha", "AAA", "LA", 6, 385/100, 9, 2, none, none, 100⟩
      (by norm_num [Build.enrichOne, Build.companyLookup, dictOfLast, dictGet,
        pyRound2, roundHalfEven])
      (by intro p hp; simp [dictGet] at hp)

/-- C4: in `build_enriched_data` (Top-25 variant), a matched quote with a
present week-ago price strictly greater than 0 gets
`change_pct = round((current - weekAgoPrice) / weekAgoPrice * 100, 2)`;
any other matched quote gets `change_pct = 0` (no 52-week-low fallback). -/
theorem C4_top25_change_pct
    (quotes : List BuildTop25.Quote) (c : BuildTop25.Company)
    (e : BuildTop25.EnrichedStock) (q : BuildTop25.Quote)
    (he : BuildTop25.enrichOne quotes c = some e)
    (hq : BuildTop25.quoteLookup quotes c.ticker = some q) :
    (∀ w, q.week_ago_price = some w → 0 < w →
      e.change_pct = pyRound2 (((q.price - w) / w) * 100)) ∧
    ((∀ w, q.week_ago_price = some w → ¬ 0 < w) → e.change_pct = 0) := by
  simp only [BuildTop25.enrichOne, hq, Option.some_inj] at he
  constructor
  · intro w hw hpos
    rw [← he]
    simp [hw, if_pos hpos]
  · intro hnone
    rw [← he]
    rcases hw : q.week_ago_price with _ | w
    · simp [hw, pyRound2_zero]
    · have := hnone w hw
      simp [hw, if_neg this, pyRound2_zero]

/-- Witness for C4 at two concrete inputs packaged through the same quote
list: ticker AAA has `week_ago_price = 4` (so `change_pct = 25`), and the
absent-week-ago case follows from the second conjunct at a quote with
`week_ago_price = None`. -/
theorem C4_top25_change_pct_witness :
    (⟨0, "Alpha", "AAA", "LA", "Los Angeles County", 5, 25, 9, 2, none, none,
        "https://finance.yahoo.com/quote/AAA/"⟩ :
      BuildTop25.EnrichedStock).change_pct =
      pyRound2 ((((⟨"AAA", 5, some 4, 9, 2, none, none, 7⟩ :
        BuildTop25.Quote).price - 4) / 4) * 100) := by
  have he : BuildTop25.enrichOne [⟨"AAA", 5, some 4, 9, 2, none, none, 7⟩]
      ⟨"AAA", "Alpha", "LA", "Los Angeles County"⟩ =
      some ⟨0, "Alpha", "AAA", "LA", "Los Angeles County", 5, 25, 9, 2, none,
        none, "https://finance.yahoo.com/quote/AAA/"⟩ := by
    norm_num [BuildTop25.enrichOne, BuildTop25.quoteLookup, dictOfLast,
      pyRound2, roundHalfEven]
    decide
  have hq : BuildTop25.quoteLookup [⟨"AAA", 5, some 4, 9, 2, none, none, 7⟩]
      (⟨"AAA", "Alpha", "LA", "Los Angeles County"⟩ :
        BuildTop25.Company).ticker =
      some ⟨"AAA", 5, some 4, 9, 2, none, none, 7⟩ := by
    norm_num [BuildTop25.quoteLookup, dictOfLast]
  have h := C4_top25_change_pct [⟨"AAA", 5, some 4, 9, 2, none, none, 7⟩]
    ⟨"AAA", "Alpha", "LA", "Los Angeles County"⟩
    ⟨0, "Alpha", "AAA", "LA", "Los Angeles County", 5, 25, 9, 2, none, none,
      "https://finance.yahoo.com/quote/AAA/"⟩
    ⟨"AAA", 5, some 4, 9, 2, none, none, 7⟩ he hq
  exact h.1 4 rfl (by norm_num)

/-- C1 (code bug): with two enriched stocks the gainers and losers lists
share their dict objects, and the losers rank loop runs last, so the
gainers list ends the run with ranks `[2, 1]` instead of the dense `[1, 2]`
required by the invariant.  Here stock AAA has `change_pct = 100` (previous
price 5, current 10) and stock BBB has `change_pct = 0`. -/
theorem C1_gainers_rank_clobbered :
    (Build.build_rankings
        [⟨"AAA", "Alpha", "LA"⟩, ⟨"BBB", "Beta", "SD"⟩]
        [⟨"AAA", 10, 0, 0, none, none, 0⟩, ⟨"BBB", 10, 0, 0, none, none, 0⟩]
        [("AAA", 5)]).gainers.map Build.EnrichedStock.rank = [2, 1] := by
  have h1 : Build.enrichOne [⟨"AAA", "Alpha", "LA"⟩, ⟨"BBB", "Beta", "SD"⟩]
      [("AAA", 5)] ⟨"AAA", 10, 0, 0, none, none, 0⟩ =
      some ⟨0, "Alpha", "AAA", "LA", 10, 100, 0, 0, none, none, 0⟩ := by
    simp [Build.enrichOne, Build.companyLookup, dictOfLast, dictGet]
    norm_num [pyRound2, roundHalfEven]
  have h2 : Build.enrichOne [⟨"AAA", "Alpha", "LA"⟩, ⟨"BBB", "Beta", "SD"⟩]
      [("AAA", 5)] ⟨"BBB", 10, 0, 0, none, none, 0⟩ =
      some ⟨0, "Beta", "BBB", "SD", 10, 0, 0, 0, none, none, 0⟩ := by
    simp [Build.enrichOne, Build.companyLookup, dictOfLast, dictGet]
    norm_num [pyRound2, roundHalfEven]
  simp only [Build.build_rankings, List.filterMap_cons, h1, h2,
    List.filterMap_nil]
  norm_num [tagFrom, pySorted, insSorted, Build.descByChange,
    Build.ascByChange, Build.finalRank, posOf, Build.setRank, List.take]

namespace BuildTop25

theorem descByChangeTop25_trans : ∀ a b c : EnrichedStock,
    descByChange a b = true → descByChange b c = true →
    descByChange a c = true := by
  intro a b c hab hbc
  simp only [descByChange, decide_eq_true_eq] at *
  exact le_trans hbc hab

theorem descByChangeTop25_total : ∀ a b : EnrichedStock,
    descByChange a b = true ∨ descByChange b a = true := by
  intro a b
  simp only [descByChange, decide_eq_true_eq]
  exact le_total b.change_pct a.change_pct

end BuildTop25

/-- C8: `find_spotlight_stocks` returns as top gainer an element of its
input with the maximum `change_pct` and as top loser an element with the
minimum `change_pct`; on an empty input both components are `None` and the
operation is total (no crash), as is the weekly variant's guarded
`gainers[0] if gainers else None` expression. -/
theorem C8_spotlights (enriched : List BuildTop25.EnrichedStock) :
    BuildTop25.find_spotlight_stocks [] = (none, none) ∧
    Build.spotlightOf [] = none ∧
    (∀ g, (BuildTop25.find_spotlight_stocks enriched).1 = some g →
      g ∈ enriched ∧ ∀ s ∈ enriched, s.change_pct ≤ g.change_pct) ∧
    (∀ l0, (BuildTop25.find_spotlight_stocks enriched).2 = some l0 →
      l0 ∈ enriched ∧ ∀ s ∈ enriched, l0.change_pct ≤ s.change_pct) := by
  have hperm := pySorted_perm BuildTop25.descByChange enriched
  have hpw0 := pySorted_pairwise BuildTop25.descByChangeTop25_trans
    BuildTop25.descByChangeTop25_total enriched
  have hpw : (pySorted BuildTop25.descByChange enriched).Pairwise
      (fun a b => b.change_pct ≤ a.change_pct) :=
    hpw0.imp (by
      intro a b h
      simpa [BuildTop25.descByChange, decide_eq_true_eq] using h)
  refine ⟨rfl, rfl, ?_, ?_⟩
  · intro g hg
    rw [BuildTop25.find_spotlight_stocks] at hg
    have hmem : g ∈ pySorted BuildTop25.descByChange enriched :=
      List.mem_of_mem_head? hg
    refine ⟨hperm.mem_iff.mp hmem, ?_⟩
    intro s hs
    exact @pairwise_head_rel _ (fun a b => b.change_pct ≤ a.change_pct)
      (fun a => le_refl a.change_pct) _ hpw g hg s (hperm.mem_iff.mpr hs)
  · intro l0 hl
    rw [BuildTop25.find_spotlight_stocks] at hl
    have hmem : l0 ∈ pySorted BuildTop25.descByChange enriched := by
      rw [List.getLast?_eq_head?_reverse] at hl
      have := List.mem_of_mem_head? hl
      simpa using this
    refine ⟨hperm.mem_iff.mp hmem, ?_⟩
    intro s hs
    exact @pairwise_getLast_rel _ (fun a b => b.change_pct ≤ a.change_pct)
      (fun a => le_refl a.change_pct) _ hpw l0 hl s (hperm.mem_iff.mpr hs)

/-- Witness for C8 at a concrete two-element input: the top gainer (change
100) dominates the other element (change 0), and the top loser (change 0)
is below the other element. -/
theorem C8_spotlights_witness :
    (⟨1, "Alpha", "AAA", "LA", "LAC", 5, 0, 9, 2, none, none, "u"⟩ :
        BuildTop25.EnrichedStock).change_pct ≤
      (⟨2, "Beta", "BBB", "SD", "SDC", 5, 100, 9, 2, none, none, "v"⟩ :
        BuildTop25.EnrichedStock).change_pct ∧
    (⟨1, "Alpha", "AAA", "LA", "LAC", 5, 0, 9, 2, none, none, "u"⟩ :
        BuildTop25.EnrichedStock).change_pct ≤
      (⟨2, "Beta", "BBB", "SD", "SDC", 5, 100, 9, 2, none, none, "v"⟩ :
        BuildTop25.EnrichedStock).change_pct := by
  have h := C8_spotlights
    [⟨1, "Alpha", "AAA", "LA", "LAC", 5, 0, 9, 2, none, none, "u"⟩,
     ⟨2, "Beta", "BBB", "SD", "SDC", 5, 100, 9, 2, none, none, "v"⟩]
  constructor
  · refine (h.2.2.1 ⟨2, "Beta", "BBB", "SD", "SDC", 5, 100, 9, 2, none, none,
      "v"⟩ ?_).2 ⟨1, "Alpha", "AAA", "LA", "LAC", 5, 0, 9, 2, none, none, "u"⟩
      (by simp)
    norm_num [BuildTop25.find_spotlight_stocks, pySorted, insSorted,
      BuildTop25.descByChange]
  · refine (h.2.2.2 ⟨1, "Alpha", "AAA", "LA", "LAC", 5, 0, 9, 2, none, none,
      "u"⟩ ?_).2 ⟨2, "Beta", "BBB", "SD", "SDC", 5, 100, 9, 2, none, none, "v"⟩
      (by simp)
    norm_num [BuildTop25.find_spotlight_stocks, pySorted, insSorted,
      BuildTop25.descByChange]

namespace Build

theorem descByChange_trans : ∀ a b c : ℕ × EnrichedStock,
    descByChange a b = true → descByChange b c = true →
    descByChange a c = true := by
  intro a b c hab hbc
  simp only [descByChange, decide_eq_true_eq] at *
  exact le_trans hbc hab

theorem descByChange_total : ∀ a b : ℕ × EnrichedStock,
    descByChange a b = true ∨ descByChange b a = true := by
  intro a b
  simp only [descByChange, decide_eq_true_eq]
  exact le_total b.2.change_pct a.2.change_pct

theorem ascByChange_trans : ∀ a b c : ℕ × EnrichedStock,
    ascByChange a b = true → ascByChange b c = true →
    ascByChange a c = true := by
  intro a b c hab hbc
  simp only [ascByChange, decide_eq_true_eq] at *
  exact le_trans hab hbc

theorem ascByChange_total : ∀ a b : ℕ × EnrichedStock,
    ascByChange a b = true ∨ ascByChange b a = true := by
  intro a b
  simp only [ascByChange, decide_eq_true_eq]
  exact le_total a.2.change_pct b.2.change_pct

theorem setRank_change_pct (s : EnrichedStock) (n : ℕ) :
    (setRank s n).change_pct = s.change_pct := rfl

end Build

/-- C5: for every input, `build_rankings` returns a gainers list of at most
25 elements sorted by `change_pct` in non-increasing order, and a losers
list of at most 25 elements sorted in non-decreasing order whose head has
the minimum `change_pct` of the whole enriched input. -/
theorem C5_rank_by_change_shape (companies : List Build.Company)
    (quotes : List Build.Quote) (prev : List (String × ℚ)) :
    (Build.build_rankings companies quotes prev).gainers.length ≤ 25 ∧
    (Build.build_rankings companies quotes prev).losers.length ≤ 25 ∧
    (Build.build_rankings companies quotes prev).gainers.Pairwise
      (fun a b => b.change_pct ≤ a.change_pct) ∧
    (Build.build_rankings companies quotes prev).losers.Pairwise
      (fun a b => a.change_pct ≤ b.change_pct) ∧
    (∀ h0 ∈ (Build.build_rankings companies quotes prev).losers.head?,
      ∀ s ∈ quotes.filterMap (Build.enrichOne companies prev),
        h0.change_pct ≤ s.change_pct) := by
  have hpwD := pySorted_pairwise Build.descByChange_trans
    Build.descByChange_total
    (tagFrom 0 (quotes.filterMap (Build.enrichOne companies prev)))
  have hpwA := pySorted_pairwise Build.ascByChange_trans
    Build.ascByChange_total
    (pySorted Build.descByChange
      (tagFrom 0 (quotes.filterMap (Build.enrichOne companies prev))))
  have hpermD := pySorted_perm Build.descByChange
    (tagFrom 0 (quotes.filterMap (Build.enrichOne companies prev)))
  have hpermA := pySorted_perm Build.ascByChange
    (pySorted Build.descByChange
      (tagFrom 0 (quotes.filterMap (Build.enrichOne companies prev))))
  simp only [Build.build_rankings]
  refine ⟨?_, ?_, ?_, ?_, ?_⟩
  · simp only [List.length_map, List.length_take]
    exact le_trans (min_le_left _ _) (le_refl 25)
  · simp only [List.length_map, List.length_take]
    exact le_trans (min_le_left _ _) (le_refl 25)
  · rw [List.pairwise_map]
    refine List.Pairwise.imp ?_
      (List.Pairwise.sublist (List.take_sublist 25 _) hpwD)
    intro a b h
    simp only [Build.descByChange, decide_eq_true_eq] at h
    simpa [Build.setRank_change_pct] using h
  · rw [List.pairwise_map]
    refine List.Pairwise.imp ?_
      (List.Pairwise.sublist (List.take_sublist 25 _) hpwA)
    intro a b h
    simp only [Build.ascByChange, decide_eq_true_eq] at h
    simpa [Build.setRank_change_pct] using h
  · intro h0 hh0 s hs
    rw [List.head?_map] at hh0
    rcases hp : (List.take 25 (pySorted Build.ascByChange
        (pySorted Build.descByChange (tagFrom 0
          (quotes.filterMap (Build.enrichOne companies prev)))))).head? with
      _ | p
    · rw [hp] at hh0; simp at hh0
    · rw [hp] at hh0
      rw [Option.map_some', Option.mem_def, Option.some_inj] at hh0
      have hpA : p ∈ (pySorted Build.ascByChange
          (pySorted Build.descByChange (tagFrom 0
            (quotes.filterMap (Build.enrichOne companies prev))))).head? := by
        rw [List.head?_take] at hp
        simp only [OfNat.ofNat_ne_zero, if_false] at hp
        rw [hp]; rfl
      obtain ⟨i, hi⟩ := mem_tagFrom_of_mem hs 0
      have hmem : (i, s) ∈ pySorted Build.ascByChange
          (pySorted Build.descByChange (tagFrom 0
            (quotes.filterMap (Build.enrichOne companies prev)))) :=
        hpermA.mem_iff.mpr (hpermD.mem_iff.mpr hi)
      have hle := @pairwise_head_rel _
        (fun a b : ℕ × Build.EnrichedStock => Build.ascByChange a b = true)
        (by intro a; simp [Build.ascByChange]) _ hpwA p hpA (i, s) hmem
      simp only [Build.ascByChange, decide_eq_true_eq] at hle
      rw [← hh0]
      simpa [Build.setRank_change_pct] using hle

/-- Witness for C5 at a concrete input: the head of the losers list (change
0) is below the enriched stock with change 100. -/
theorem C5_rank_by_change_shape_witness :
    (⟨1, "Beta", "BBB", "SD", 10, 0, 0, 0, none, none, 0⟩ :
        Build.EnrichedStock).change_pct ≤
      (⟨0, "Alpha", "AAA", "LA", 10, 100, 0, 0, none, none, 0⟩ :
        Build.EnrichedStock).change_pct := by
  have h1 : Build.enrichOne [⟨"AAA", "Alpha", "LA"⟩, ⟨"BBB", "Beta", "SD"⟩]
      [("AAA", 5)] ⟨"AAA", 10, 0, 0, none, none, 0⟩ =
      some ⟨0, "Alpha", "AAA", "LA", 10, 100, 0, 0, none, none, 0⟩ := by
    simp [Build.enrichOne, Build.companyLookup, dictOfLast, dictGet]
    norm_num [pyRound2, roundHalfEven]
  have h2 : Build.enrichOne [⟨"AAA", "Alpha", "LA"⟩, ⟨"BBB", "Beta", "SD"⟩]
      [("AAA", 5)] ⟨"BBB", 10, 0, 0, none, none, 0⟩ =
      some ⟨0, "Beta", "BBB", "SD", 10, 0, 0, 0, none, none, 0⟩ := by
    simp [Build.enrichOne, Build.companyLookup, dictOfLast, dictGet]
    norm_num [pyRound2, roundHalfEven]
  have h := C5_rank_by_change_shape
    [⟨"AAA", "Alpha", "LA"⟩, ⟨"BBB", "Beta", "SD"⟩]
    [⟨"AAA", 10, 0, 0, none, none, 0⟩, ⟨"BBB", 10, 0, 0, none, none, 0⟩]
    [("AAA", 5)]
  refine h.2.2.2.2 ⟨1, "Beta", "BBB", "SD", 10, 0, 0, 0, none, none, 0⟩ ?_
    ⟨0, "Alpha", "AAA", "LA", 10, 100, 0, 0, none, none, 0⟩ ?_
  · simp only [Build.build_rankings, List.filterMap_cons, h1, h2,
      List.filterMap_nil]
    norm_num [tagFrom, pySorted, insSorted, Build.descByChange,
      Build.ascByChange, Build.finalRank, posOf, Build.setRank, List.take]
  · simp only [List.filterMap_cons, h1, h2, List.filterMap_nil]
    simp

namespace StockWatch

theorem foldl_min_mem (c : ℚ) (cs : List ℚ) : cs.foldl min c ∈ c :: cs := by
  induction cs generalizing c with
  | nil => simp
  | cons x xs ih =>
    simp only [List.foldl_cons]
    rcases List.mem_cons.mp (ih (min c x)) with h1 | h2
    · rcases min_choice c x with hm | hm
      · rw [h1, hm]; simp
      · rw [h1, hm]; simp
    · exact List.mem_cons_of_mem _ (List.mem_cons_of_mem _ h2)

theorem foldl_max_mem (c : ℚ) (cs : List ℚ) : cs.foldl max c ∈ c :: cs := by
  induction cs generalizing c with
  | nil => simp
  | cons x xs ih =>
    simp only [List.foldl_cons]
    rcases List.mem_cons.mp (ih (max c x)) with h1 | h2
    · rcases max_choice c x with hm | hm
      · rw [h1, hm]; simp
      · rw [h1, hm]; simp
    · exact List.mem_cons_of_mem _ (List.mem_cons_of_mem _ h2)

theorem pyMin_mem {l : List ℚ} {m : ℚ} (h : pyMin l = some m) : m ∈ l := by
  cases l with
  | nil => simp [pyMin] at h
  | cons x xs =>
    simp only [pyMin, Option.some_inj] at h
    rw [← h]
    exact foldl_min_mem x xs

theorem pyMax_mem {l : List ℚ} {m : ℚ} (h : pyMax l = some m) : m ∈ l := by
  cases l with
  | nil => simp [pyMax] at h
  | cons x xs =>
    simp only [pyMax, Option.some_inj] at h
    rw [← h]
    exact foldl_max_mem x xs

end StockWatch

namespace BuildTop25

theorem check1_passed (e : List EnrichedStock) (f : List String) :
    ((check1 e f).2 = true ↔ e.length = 25) := by
  by_cases h : e.length = 25 <;> simp [check1, h]

theorem check1_class (e : List EnrichedStock) (f : List String) :
    ∀ x ∈ (check1 e f).1, isCheck1Line x = true := by
  intro x hx
  by_cases h : e.length = 25
  · simp [check1, h] at hx
    simp [hx, isCheck1Line]
  · by_cases hf : f.isEmpty <;> simp [check1, h, hf] at hx
    · simp [hx, isCheck1Line]
    · rcases hx with rfl | rfl <;> simp [isCheck1Line]

theorem check1_ne_nil (e : List EnrichedStock) (f : List String) :
    (check1 e f).1 ≠ [] := by
  by_cases h : e.length = 25 <;> by_cases hf : f.isEmpty <;>
    simp [check1, h, hf]

theorem check2_eq_some_of_ne_nil (e : List EnrichedStock) (hne : e ≠ []) :
    ∃ c2, check2 e = some c2 := by
  cases e with
  | nil => exact absurd rfl hne
  | cons s t =>
    by_cases hall : ((s :: t).map (·.price)).all (fun p => decide (0 < p))
    · simp only [List.map_cons] at hall
      refine ⟨([.priceRangeOk ((t.map (·.price)).foldl min s.price)
        ((t.map (·.price)).foldl max s.price)], true), ?_⟩
      simp only [check2, List.map_cons, if_pos hall]
    · simp only [List.map_cons] at hall
      exact ⟨([.priceRangeFailed], false),
        by simp only [check2, List.map_cons, if_neg hall]⟩

theorem check2_passed (e : List EnrichedStock) (c2 : List LogLine × Bool)
    (h : check2 e = some c2) : (c2.2 = true ↔ ∀ s ∈ e, 0 < s.price) := by
  cases e with
  | nil => simp [check2] at h
  | cons s t =>
    by_cases hall : ((s :: t).map (·.price)).all (fun p => decide (0 < p))
    · have hall' := hall
      simp only [List.map_cons] at hall'
      simp only [check2, List.map_cons, if_pos hall', Option.some_inj] at h
      rw [← h]
      simp only [iff_true_left, true_iff, eq_self_iff_true]
      intro s' hs'
      have := List.all_eq_true.mp hall (s'.price)
        (List.mem_map.mpr ⟨s', hs', rfl⟩)
      simpa using this
    · have hall' := hall
      simp only [List.map_cons] at hall'
      simp only [check2, List.map_cons, if_neg hall', Option.some_inj] at h
      rw [← h]
      simp only [Bool.false_eq_true, false_iff]
      intro hforall
      refine hall (List.all_eq_true.mpr ?_)
      intro p hp
      obtain ⟨s', hs', rfl⟩ := List.mem_map.mp hp
      simpa using hforall s' hs'

theorem check2_class (e : List EnrichedStock) (c2 : List LogLine × Bool)
    (h : check2 e = some c2) : ∀ x ∈ c2.1, isCheck2Line x = true := by
  intro x hx
  cases e with
  | nil => simp [check2] at h
  | cons s t =>
    by_cases hall : ((s :: t).map (·.price)).all (fun p => decide (0 < p))
    · simp only [List.map_cons] at hall
      simp only [check2, List.map_cons, if_pos hall, Option.some_inj] at h
      rw [← h] at hx
      simp at hx
      simp [hx, isCheck2Line]
    · simp only [List.map_cons] at hall
      simp only [check2, List.map_cons, if_neg hall, Option.some_inj] at h
      rw [← h] at hx
      simp at hx
      simp [hx, isCheck2Line]

theorem check2_ne_nil (e : List EnrichedStock) (c2 : List LogLine × Bool)
    (h : check2 e = some c2) : c2.1 ≠ [] := by
  cases e with
  | nil => simp [check2] at h
  | cons s t =>
    by_cases hall : ((s :: t).map (·.price)).all (fun p => decide (0 < p))
    · simp only [List.map_cons] at hall
      simp only [check2, List.map_cons, if_pos hall, Option.some_inj] at h
      rw [← h]; simp
    · simp only [List.map_cons] at hall
      simp only [check2, List.map_cons, if_neg hall, Option.some_inj] at h
      rw [← h]; simp

theorem check3_class (e : List EnrichedStock) :
    ∀ x ∈ check3 e, isCheck3Line x = true := by
  intro x hx
  rcases hcaps : capsOf e with _ | ⟨c, cs⟩
  · simp [check3, hcaps] at hx
  · by_cases hband : MIN_MARKET_CAP ≤ cs.foldl min c ∧
      cs.foldl max c ≤ MAX_MARKET_CAP
    · simp only [check3, hcaps, if_pos hband, List.mem_singleton] at hx
      simp [hx, isCheck3Line]
    · simp only [check3, hcaps, if_neg hband, List.mem_singleton] at hx
      simp [hx, isCheck3Line]

theorem check4_class (e : List EnrichedStock) :
    ∀ x ∈ check4 e, isCheck4Line x = true := by
  intro x hx
  by_cases hext :
      (e.filter (fun s => decide (MAX_WEEKLY_CHANGE < |s.change_pct|))).isEmpty
  · simp only [check4, if_pos hext, List.mem_singleton] at hx
    simp [hx, isCheck4Line]
  · simp only [check4, if_neg hext] at hx
    obtain ⟨s, _, rfl⟩ := List.mem_map.mp hx
    simp [isCheck4Line]

theorem check4_ne_nil (e : List EnrichedStock) : check4 e ≠ [] := by
  rw [check4]
  split
  · simp
  · next hext =>
    intro hmap
    rw [List.map_eq_nil_iff] at hmap
    rw [hmap] at hext
    exact hext rfl

theorem validate_data_eq (e : List EnrichedStock) (f : List String)
    (r : Bool × List LogLine) (hr : validate_data e f = some r) :
    ∃ c2, check2 e = some c2 ∧
      r = ((check1 e f).2 && c2.2,
        (check1 e f).1 ++ c2.1 ++ check3 e ++ check4 e) := by
  rcases hc2 : check2 e with _ | c2
  · rw [validate_data, hc2] at hr; cases hr
  · rw [validate_data, hc2] at hr
    rw [Option.some_inj] at hr
    exact ⟨c2, rfl, hr.symm⟩

theorem check3_warning_mem (e : List EnrichedStock) (lo hi : ℚ)
    (hmin : StockWatch.pyMin (capsOf e) = some lo)
    (hmax : StockWatch.pyMax (capsOf e) = some hi)
    (hband : ¬(MIN_MARKET_CAP ≤ lo ∧ hi ≤ MAX_MARKET_CAP)) :
    check3 e = [.capRangeWarning lo hi] := by
  rcases hcaps : capsOf e with _ | ⟨c, cs⟩
  · rw [hcaps] at hmin; simp [StockWatch.pyMin] at hmin
  · rw [hcaps] at hmin hmax
    simp only [StockWatch.pyMin, Option.some_inj] at hmin
    simp only [StockWatch.pyMax, Option.some_inj] at hmax
    rw [← hmin, ← hmax] at hband
    simp only [check3, hcaps, if_neg hband]
    rw [hmin, hmax]

theorem check3_warning_inv (e : List EnrichedStock) (lo hi : ℚ)
    (h : LogLine.capRangeWarning lo hi ∈ check3 e) :
    StockWatch.pyMin (capsOf e) = some lo ∧
    StockWatch.pyMax (capsOf e) = some hi ∧
    ¬(MIN_MARKET_CAP ≤ lo ∧ hi ≤ MAX_MARKET_CAP) := by
  rcases hcaps : capsOf e with _ | ⟨c, cs⟩
  · simp [check3, hcaps] at h
  · by_cases hband : MIN_MARKET_CAP ≤ cs.foldl min c ∧
      cs.foldl max c ≤ MAX_MARKET_CAP
    · simp [check3, hcaps, if_pos hband] at h
    · simp only [check3, hcaps, if_neg hband, List.mem_singleton,
        LogLine.capRangeWarning.injEq] at h
      obtain ⟨rfl, rfl⟩ := h
      exact ⟨by simp [StockWatch.pyMin], by simp [StockWatch.pyMax], hband⟩

theorem check3_ok_inv (e : List EnrichedStock) (lo hi : ℚ)
    (h : LogLine.capRangeOk lo hi ∈ check3 e) :
    StockWatch.pyMin (capsOf e) = some lo ∧
    StockWatch.pyMax (capsOf e) = some hi := by
  rcases hcaps : capsOf e with _ | ⟨c, cs⟩
  · simp [check3, hcaps] at h
  · by_cases hband : MIN_MARKET_CAP ≤ cs.foldl min c ∧
      cs.foldl max c ≤ MAX_MARKET_CAP
    · simp only [check3, hcaps, if_pos hband, List.mem_singleton,
        LogLine.capRangeOk.injEq] at h
      obtain ⟨rfl, rfl⟩ := h
      exact ⟨by simp [StockWatch.pyMin], by simp [StockWatch.pyMax]⟩
    · simp [check3, hcaps, if_neg hband] at h

theorem capsOf_mem (e : List EnrichedStock) (c0 : ℚ) (h : c0 ∈ capsOf e) :
    ∃ s ∈ e, s.market_cap = some c0 ∧ c0 ≠ 0 := by
  obtain ⟨s, hs, hf⟩ := List.mem_filterMap.mp h
  rcases hm : s.market_cap with _ | c
  · simp [hm] at hf
  · simp only [hm] at hf
    by_cases hc : c = 0
    · rw [if_pos hc] at hf; cases hf
    · rw [if_neg hc, Option.some_inj] at hf
      exact ⟨s, hs, by rw [hm, hf], hf ▸ hc⟩

theorem capsOf_nil_of_missing (e : List EnrichedStock)
    (h : ∀ s ∈ e, s.market_cap = none ∨ s.market_cap = some 0) :
    capsOf e = [] := by
  refine List.filterMap_eq_nil_iff.mpr ?_
  intro s hs
  rcases h s hs with hm | hm <;> rw [hm]
  simp

theorem mem_log_check3 (e : List EnrichedStock) (f : List String)
    (c2 : List LogLine × Bool) (hc2 : check2 e = some c2) (x : LogLine)
    (hx : x ∈ (check1 e f).1 ++ c2.1 ++ check3 e ++ check4 e)
    (h1 : isCheck1Line x = false) (h2 : isCheck2Line x = false)
    (h4 : isCheck4Line x = false) : x ∈ check3 e := by
  rcases (by simpa [List.mem_append] using hx :
      x ∈ (check1 e f).1 ∨ x ∈ c2.1 ∨ x ∈ check3 e ∨ x ∈ check4 e) with
    ha | hb | hc | hd
  · rw [check1_class e f x ha] at h1; cases h1
  · rw [check2_class e c2 hc2 x hb] at h2; cases h2
  · exact hc
  · rw [check4_class e x hd] at h4; cases h4

end BuildTop25

/-- C6: whenever `validate_data` returns, its `passed` boolean is exactly
the conjunction of check 1 (exactly 25 entries) and check 2 (all prices
positive); market-cap bounds and extreme movers never affect it, but an
out-of-band market-cap range does put a WARNING line in the log. -/
theorem C6_validator_passed_conjunction (e : List BuildTop25.EnrichedStock)
    (f : List String) (r : Bool × List BuildTop25.LogLine)
    (hr : BuildTop25.validate_data e f = some r) :
    (r.1 = true ↔ (e.length = 25 ∧ ∀ s ∈ e, 0 < s.price)) ∧
    (∀ lo hi, pyMin (BuildTop25.capsOf e) = some lo →
      pyMax (BuildTop25.capsOf e) = some hi →
      ¬(BuildTop25.MIN_MARKET_CAP ≤ lo ∧ hi ≤ BuildTop25.MAX_MARKET_CAP) →
      BuildTop25.LogLine.capRangeWarning lo hi ∈ r.2) := by
  obtain ⟨c2, hc2, rfl⟩ := BuildTop25.validate_data_eq e f r hr
  constructor
  · rw [Bool.and_eq_true, BuildTop25.check1_passed e f,
      BuildTop25.check2_passed e c2 hc2]
  · intro lo hi hmin hmax hband
    have h3 := BuildTop25.check3_warning_mem e lo hi hmin hmax hband
    simp [h3, List.mem_append]

/-- Witness for C6: a single enriched entry with a $600B market cap — the
validator returns, and its log contains the out-of-band WARNING line. -/
theorem C6_validator_passed_conjunction_witness :
    BuildTop25.LogLine.capRangeWarning 600000000000 600000000000 ∈
      [BuildTop25.LogLine.tickersFailed 1,
       BuildTop25.LogLine.priceRangeOk 5 5,
       BuildTop25.LogLine.capRangeWarning 600000000000 600000000000,
       BuildTop25.LogLine.noExtremeMovers] := by
  have hr : BuildTop25.validate_data
      [⟨1, "Alpha", "AAA", "LA", "LAC", 5, 0, 9, 2, some 600000000000, none,
        "u"⟩] [] =
      some (false,
        [BuildTop25.LogLine.tickersFailed 1,
         BuildTop25.LogLine.priceRangeOk 5 5,
         BuildTop25.LogLine.capRangeWarning 600000000000 600000000000,
         BuildTop25.LogLine.noExtremeMovers]) := by
    norm_num [BuildTop25.validate_data, BuildTop25.check1, BuildTop25.check2,
      BuildTop25.check3, BuildTop25.check4, BuildTop25.capsOf,
      BuildTop25.MIN_MARKET_CAP, BuildTop25.MAX_MARKET_CAP,
      BuildTop25.MAX_WEEKLY_CHANGE, List.filterMap_cons, List.filterMap_nil]
  exact (C6_validator_passed_conjunction _ _ _ hr).2 600000000000 600000000000
    (by norm_num [BuildTop25.capsOf, pyMin, List.filterMap_cons,
      List.filterMap_nil])
    (by norm_num [BuildTop25.capsOf, pyMax, List.filterMap_cons,
      List.filterMap_nil])
    (by norm_num [BuildTop25.MIN_MARKET_CAP, BuildTop25.MAX_MARKET_CAP])

/-- C7 counterexample: `validate_data` is not total — on the empty enriched
list `all(...)` is vacuously true and `min(prices)` raises (modelled by
`none`); and with a single entry whose market cap is missing, check 3
appends no line at all (the log has only three lines, none from check 3). -/
theorem C7_validate_raises_on_empty :
    BuildTop25.validate_data [] [] = none ∧
    BuildTop25.validate_data
        [⟨1, "Alpha", "AAA", "LA", "LAC", 5, 0, 9, 2, none, none, "u"⟩] [] =
      some (false,
        [BuildTop25.LogLine.tickersFailed 1,
         BuildTop25.LogLine.priceRangeOk 5 5,
         BuildTop25.LogLine.noExtremeMovers]) := by
  constructor
  · rfl
  · norm_num [BuildTop25.validate_data, BuildTop25.check1, BuildTop25.check2,
      BuildTop25.check3, BuildTop25.check4, BuildTop25.capsOf,
      BuildTop25.MAX_WEEKLY_CHANGE, List.filterMap_cons, List.filterMap_nil]

/-- C7 (amended): for every NONEMPTY enriched list and every failed-ticker
list, `validate_data` returns a (passed, log) pair without raising; checks
1, 2 and 4 each append at least one line regardless of pass/fail, and
check 3 appends a line whenever some entry has a present nonzero market
cap (with all caps missing or zero it appends none). -/
theorem C7_validate_total_on_nonempty (e : List BuildTop25.EnrichedStock)
    (f : List String) (hne : e ≠ []) :
    ∃ pr, BuildTop25.validate_data e f = some pr ∧
      (∃ x ∈ pr.2, BuildTop25.isCheck1Line x = true) ∧
      (∃ x ∈ pr.2, BuildTop25.isCheck2Line x = true) ∧
      (∃ x ∈ pr.2, BuildTop25.isCheck4Line x = true) ∧
      (BuildTop25.capsOf e ≠ [] →
        ∃ x ∈ pr.2, BuildTop25.isCheck3Line x = true) := by
  obtain ⟨c2, hc2⟩ := BuildTop25.check2_eq_some_of_ne_nil e hne
  refine ⟨((BuildTop25.check1 e f).2 && c2.2,
    (BuildTop25.check1 e f).1 ++ c2.1 ++ BuildTop25.check3 e ++
      BuildTop25.check4 e), ?_, ?_, ?_, ?_, ?_⟩
  · simp only [BuildTop25.validate_data, hc2]
  · rcases hl : (BuildTop25.check1 e f).1 with _ | ⟨a, t⟩
    · exact absurd hl (BuildTop25.check1_ne_nil e f)
    · refine ⟨a, ?_, BuildTop25.check1_class e f a (by rw [hl]; simp)⟩
      simp [List.mem_append, hl]
  · rcases hl : c2.1 with _ | ⟨a, t⟩
    · exact absurd hl (BuildTop25.check2_ne_nil e c2 hc2)
    · refine ⟨a, ?_, BuildTop25.check2_class e c2 hc2 a (by rw [hl]; simp)⟩
      simp [List.mem_append, hl]
  · rcases hl : BuildTop25.check4 e with _ | ⟨a, t⟩
    · exact absurd hl (BuildTop25.check4_ne_nil e)
    · refine ⟨a, ?_, BuildTop25.check4_class e a (by rw [hl]; simp)⟩
      simp [List.mem_append, hl]
  · intro hcaps
    rcases hc : BuildTop25.capsOf e with _ | ⟨c, cs⟩
    · exact absurd hc hcaps
    · by_cases hband : BuildTop25.MIN_MARKET_CAP ≤ cs.foldl min c ∧
        cs.foldl max c ≤ BuildTop25.MAX_MARKET_CAP
      · refine ⟨BuildTop25.LogLine.capRangeOk (cs.foldl min c)
          (cs.foldl max c), ?_, by simp [BuildTop25.isCheck3Line]⟩
        have h3 : BuildTop25.check3 e =
            [BuildTop25.LogLine.capRangeOk (cs.foldl min c) (cs.foldl max c)] := by
          simp only [BuildTop25.check3, hc, if_pos hband]
        simp [List.mem_append, h3]
      · refine ⟨BuildTop25.LogLine.capRangeWarning (cs.foldl min c)
          (cs.foldl max c), ?_, by simp [BuildTop25.isCheck3Line]⟩
        have h3 : BuildTop25.check3 e =
            [BuildTop25.LogLine.capRangeWarning (cs.foldl min c)
              (cs.foldl max c)] := by
          simp only [BuildTop25.check3, hc, if_neg hband]
        simp [List.mem_append, h3]

/-- Witness for the amended C7: on a concrete nonempty input the validator
returns a value. -/
theorem C7_validate_total_on_nonempty_witness :
    (BuildTop25.validate_data
      [⟨1, "Alpha", "AAA", "LA", "LAC", 5, 0, 9, 2, none, none, "u"⟩]
      []).isSome = true := by
  obtain ⟨pr, hpr, -, -, -, -⟩ := C7_validate_total_on_nonempty
    [⟨1, "Alpha", "AAA", "LA", "LAC", 5, 0, 9, 2, none, none, "u"⟩] []
    (by simp)
  rw [hpr]
  rfl

/-- C10: in check 3, entries whose market cap is missing or zero are
excluded: a WARNING (or OK) range line can only carry present nonzero caps
of actual entries, a WARNING is only caused by a nonzero cap outside the
band, and when every entry's cap is missing or zero no range line appears
at all. -/
theorem C10_cap_check_excludes_missing_and_zero
    (e : List BuildTop25.EnrichedStock) (f : List String)
    (r : Bool × List BuildTop25.LogLine) (lo hi : ℚ)
    (hr : BuildTop25.validate_data e f = some r) :
    (BuildTop25.LogLine.capRangeWarning lo hi ∈ r.2 →
      (∃ s ∈ e, s.market_cap = some lo ∧ lo ≠ 0) ∧
      (∃ s ∈ e, s.market_cap = some hi ∧ hi ≠ 0) ∧
      (lo < BuildTop25.MIN_MARKET_CAP ∨ BuildTop25.MAX_MARKET_CAP < hi)) ∧
    (BuildTop25.LogLine.capRangeOk lo hi ∈ r.2 →
      (∃ s ∈ e, s.market_cap = some lo ∧ lo ≠ 0) ∧
      (∃ s ∈ e, s.market_cap = some hi ∧ hi ≠ 0)) ∧
    ((∀ s ∈ e, s.market_cap = none ∨ s.market_cap = some 0) →
      BuildTop25.LogLine.capRangeWarning lo hi ∉ r.2 ∧
      BuildTop25.LogLine.capRangeOk lo hi ∉ r.2) := by
  obtain ⟨c2, hc2, rfl⟩ := BuildTop25.validate_data_eq e f r hr
  refine ⟨?_, ?_, ?_⟩
  · intro hw
    have hw3 := BuildTop25.mem_log_check3 e f c2 hc2 _ hw
      (by simp [BuildTop25.isCheck1Line]) (by simp [BuildTop25.isCheck2Line])
      (by simp [BuildTop25.isCheck4Line])
    obtain ⟨hmin, hmax, hband⟩ := BuildTop25.check3_warning_inv e lo hi hw3
    refine ⟨BuildTop25.capsOf_mem e lo (pyMin_mem hmin),
      BuildTop25.capsOf_mem e hi (pyMax_mem hmax), ?_⟩
    rcases not_and_or.mp hband with h | h
    · exact Or.inl (not_le.mp h)
    · exact Or.inr (not_le.mp h)
  · intro hw
    have hw3 := BuildTop25.mem_log_check3 e f c2 hc2 _ hw
      (by simp [BuildTop25.isCheck1Line]) (by simp [BuildTop25.isCheck2Line])
      (by simp [BuildTop25.isCheck4Line])
    obtain ⟨hmin, hmax⟩ := BuildTop25.check3_ok_inv e lo hi hw3
    exact ⟨BuildTop25.capsOf_mem e lo (pyMin_mem hmin),
      BuildTop25.capsOf_mem e hi (pyMax_mem hmax)⟩
  · intro hmiss
    have h3 : BuildTop25.check3 e = [] := by
      simp [BuildTop25.check3, BuildTop25.capsOf_nil_of_missing e hmiss]
    constructor <;> intro hw
    · have hw3 := BuildTop25.mem_log_check3 e f c2 hc2 _ hw
        (by simp [BuildTop25.isCheck1Line]) (by simp [BuildTop25.isCheck2Line])
        (by simp [BuildTop25.isCheck4Line])
      rw [h3] at hw3
      simp at hw3
    · have hw3 := BuildTop25.mem_log_check3 e f c2 hc2 _ hw
        (by simp [BuildTop25.isCheck1Line]) (by simp [BuildTop25.isCheck2Line])
        (by simp [BuildTop25.isCheck4Line])
      rw [h3] at hw3
      simp at hw3

/-- Witness for C10: with the only entry's market cap missing, no WARNING
range line is in the log. -/
theorem C10_cap_check_excludes_missing_and_zero_witness :
    BuildTop25.LogLine.capRangeWarning 1 1 ∉
      [BuildTop25.LogLine.tickersFailed 1,
       BuildTop25.LogLine.priceRangeOk 5 5,
       BuildTop25.LogLine.noExtremeMovers] := by
  have hr : BuildTop25.validate_data
      [⟨1, "Alpha", "AAA", "LA", "LAC", 5, 0, 9, 2, none, none, "u"⟩] [] =
      some (false,
        [BuildTop25.LogLine.tickersFailed 1,
         BuildTop25.LogLine.priceRangeOk 5 5,
         BuildTop25.LogLine.noExtremeMovers]) := by
    norm_num [BuildTop25.validate_data, BuildTop25.check1, BuildTop25.check2,
      BuildTop25.check3, BuildTop25.check4, BuildTop25.capsOf,
      BuildTop25.MAX_WEEKLY_CHANGE, List.filterMap_cons, List.filterMap_nil]
  exact (C10_cap_check_excludes_missing_and_zero _ _ _ 1 1 hr).2.2
    (by intro s hs; simp at hs; simp [hs]) |>.1
